import Mathlib

/-!
Shallow embedding of the `facet` repository core, for checking its
natural-language specification.

Embedded components:
* `facet-msgpack/src/to_msgpack.rs` — the MessagePack serializer
  (`to_vec`, `serialize`, the `write_*` byte emitters).
* `facet-derive-emit/src/lib.rs` — the naming engine (`RenameRule`,
  `split_into_words`, the case-conversion functions) and the wire-name
  computation inside `gen_struct_field` / `build_container_attributes`.
* `facet-core/src/opaque.rs` — the `Opaque` wrapper, which registers a
  scalar descriptor with no recognized identity.

Bytes are modelled as `List Nat` with entries `< 256`; machine-integer
casts (`as u8`, `as u16`, …) are modelled with explicit `% 2^w` / `emod`
truncation. Strings on the wire are modelled by their UTF-8 byte lists
(every string in the claims is ASCII). The writer's byte sink (an
in-memory `Vec<u8>`, whose `write_all` is infallible) is modelled by
returning the emitted bytes; the only failures of `serialize` are the two
unsupported-type `Err` returns in the source, captured by `Except`.
-/

namespace Facet

/-- Big-endian bytes of `n` as a `u16` (`u16::to_be_bytes`). -/
def be2 (n : Nat) : List Nat :=
  [n / 2 ^ 8 % 256, n % 256]

/-- Big-endian bytes of `n` as a `u32` (`u32::to_be_bytes`). -/
def be4 (n : Nat) : List Nat :=
  [n / 2 ^ 24 % 256, n / 2 ^ 16 % 256, n / 2 ^ 8 % 256, n % 256]

/-- Big-endian bytes of `n` as a `u64` (`u64::to_be_bytes`). -/
def be8 (n : Nat) : List Nat :=
  [n / 2 ^ 56 % 256, n / 2 ^ 48 % 256, n / 2 ^ 40 % 256, n / 2 ^ 32 % 256,
   n / 2 ^ 24 % 256, n / 2 ^ 16 % 256, n / 2 ^ 8 % 256, n % 256]

/-- The Rust cast `n as u8` for a signed value: two's-complement low byte. -/
def toByte (n : Int) : Nat :=
  (n % 256).toNat

/-- The Rust cast of a signed value to `u16`/`u32`/`u64` bit patterns:
two's complement modulo `2^w`, as a `Nat`. -/
def toBits (w : Nat) (n : Int) : Nat :=
  (n % ((2 : Int) ^ w)).toNat

/-- `write_str` from `to_msgpack.rs`: length-tagged UTF-8 string. `s` is
the byte list of the string (`s.as_bytes()`), so `len` is the byte
length. -/
def write_str (s : List Nat) : List Nat :=
  let len := s.length
  if len ≤ 31 then
    -- fixstr
    (0xa0 ||| len) :: s
  else if len ≤ 255 then
    -- str8
    0xd9 :: len :: s
  else if len ≤ 65535 then
    -- str16
    0xda :: be2 len ++ s
  else
    -- str32
    0xdb :: be4 (len % 2 ^ 32) ++ s

/-- `write_u8` from `to_msgpack.rs`. Domain: `n < 2^8`. -/
def write_u8 (n : Nat) : List Nat :=
  if n ≤ 127 then
    -- positive fixint
    [n]
  else
    -- uint8
    [0xcc, n]

/-- `write_u16` from `to_msgpack.rs`. Domain: `n < 2^16`. -/
def write_u16 (n : Nat) : List Nat :=
  if n ≤ 127 then
    [n % 256]
  else if n ≤ 255 then
    [0xcc, n % 256]
  else
    0xcd :: be2 n

/-- `write_u32` from `to_msgpack.rs`. Domain: `n < 2^32`. -/
def write_u32 (n : Nat) : List Nat :=
  if n ≤ 127 then
    [n % 256]
  else if n ≤ 255 then
    [0xcc, n % 256]
  else if n ≤ 65535 then
    0xcd :: be2 (n % 2 ^ 16)
  else
    0xce :: be4 n

/-- `write_u64` from `to_msgpack.rs`. Domain: `n < 2^64`. -/
def write_u64 (n : Nat) : List Nat :=
  if n ≤ 127 then
    [n % 256]
  else if n ≤ 255 then
    [0xcc, n % 256]
  else if n ≤ 65535 then
    0xcd :: be2 (n % 2 ^ 16)
  else if n ≤ 4294967295 then
    0xce :: be4 (n % 2 ^ 32)
  else
    0xcf :: be8 n

/-- `write_i8` from `to_msgpack.rs`. Its Rust `match` is exhaustive over
the `i8` domain `[-128, 127]`; the final `[]` branch is outside that
domain and unreachable there. -/
def write_i8 (n : Int) : List Nat :=
  if -32 ≤ n ∧ n ≤ -1 then
    -- negative fixint
    [toByte n]
  else if -128 ≤ n ∧ n ≤ -33 then
    -- int8
    [0xd0, toByte n]
  else if 0 ≤ n ∧ n ≤ 127 then
    -- positive fixint
    [toByte n]
  else
    []

/-- `write_i16` from `to_msgpack.rs`. Exhaustive over `[-2^15, 2^15)`;
the final `[]` branch is outside the `i16` domain. -/
def write_i16 (n : Int) : List Nat :=
  if -32 ≤ n ∧ n ≤ -1 then
    [toByte n]
  else if -128 ≤ n ∧ n ≤ -33 then
    [0xd0, toByte n]
  else if -32768 ≤ n ∧ n ≤ -129 then
    0xd1 :: be2 (toBits 16 n)
  else if 0 ≤ n ∧ n ≤ 127 then
    [toByte n]
  else if 128 ≤ n ∧ n ≤ 255 then
    [0xcc, toByte n]
  else if 256 ≤ n ∧ n ≤ 32767 then
    0xcd :: be2 (toBits 16 n)
  else
    []

/-- `write_i32` from `to_msgpack.rs`. Exhaustive over `[-2^31, 2^31)`. -/
def write_i32 (n : Int) : List Nat :=
  if -32 ≤ n ∧ n ≤ -1 then
    [toByte n]
  else if -128 ≤ n ∧ n ≤ -33 then
    [0xd0, toByte n]
  else if -32768 ≤ n ∧ n ≤ -129 then
    0xd1 :: be2 (toBits 16 n)
  else if -2147483648 ≤ n ∧ n ≤ -32769 then
    0xd2 :: be4 (toBits 32 n)
  else if 0 ≤ n ∧ n ≤ 127 then
    [toByte n]
  else if 128 ≤ n ∧ n ≤ 255 then
    [0xcc, toByte n]
  else if 256 ≤ n ∧ n ≤ 65535 then
    0xcd :: be2 (toBits 16 n)
  else if 65536 ≤ n ∧ n ≤ 2147483647 then
    0xce :: be4 (toBits 32 n)
  else
    []

/-- `write_i64` from `to_msgpack.rs`. Exhaustive over `[-2^63, 2^63)`. -/
def write_i64 (n : Int) : List Nat :=
  if -32 ≤ n ∧ n ≤ -1 then
    [toByte n]
  else if -128 ≤ n ∧ n ≤ -33 then
    [0xd0, toByte n]
  else if -32768 ≤ n ∧ n ≤ -129 then
    0xd1 :: be2 (toBits 16 n)
  else if -2147483648 ≤ n ∧ n ≤ -32769 then
    0xd2 :: be4 (toBits 32 n)
  else if -9223372036854775808 ≤ n ∧ n ≤ -2147483649 then
    0xd3 :: be8 (toBits 64 n)
  else if 0 ≤ n ∧ n ≤ 127 then
    [toByte n]
  else if 128 ≤ n ∧ n ≤ 255 then
    [0xcc, toByte n]
  else if 256 ≤ n ∧ n ≤ 65535 then
    0xcd :: be2 (toBits 16 n)
  else if 65536 ≤ n ∧ n ≤ 4294967295 then
    0xce :: be4 (toBits 32 n)
  else if 4294967296 ≤ n ∧ n ≤ 9223372036854775807 then
    0xcf :: be8 (toBits 64 n)
  else
    []

/-- `write_map_len` from `to_msgpack.rs`. -/
def write_map_len (len : Nat) : List Nat :=
  if len ≤ 15 then
    -- fixmap
    [0x80 ||| len]
  else if len ≤ 65535 then
    -- map16
    0xde :: be2 len
  else
    -- map32
    0xdf :: be4 (len % 2 ^ 32)

/-- The scalar identities the `Def::Scalar` branch of `serialize`
dispatches on via `is_type`, plus `unknownScalar` for every scalar
identity with no encoding path (the `Opaque<T>` wrapper of
`facet-core/src/opaque.rs` registers such a scalar descriptor, as does
any other unlisted scalar type). The payload of `unknownScalar` stands
for the shape's type name used in the error message. -/
inductive ScalarValue where
  | string (bytes : List Nat)
  | u64v (n : Nat)
  | u32v (n : Nat)
  | u16v (n : Nat)
  | u8v (n : Nat)
  | i64v (n : Int)
  | i32v (n : Int)
  | i16v (n : Int)
  | i8v (n : Int)
  | unknownScalar (typeName : List Nat)
deriving DecidableEq, Repr

/-- A value paired with its descriptor, as seen through `Peek`:
its `shape.def` is `Scalar`, `Struct` (with the descriptor's ordered
field list, each field carrying its wire name), or some other `Def`
variant (`Enum`, `List`, `Map`, `Option`, …), which `serialize` matches
with `_`. -/
inductive Value where
  | scalar (s : ScalarValue)
  | struct (fields : List (List Nat × Value))
  | otherDef (kindName : List Nat)

/-- The classified errors `serialize` constructs: the two
`io::Error::new(ErrorKind::Other, …)` returns. -/
inductive SerError where
  | unsupportedScalar (typeName : List Nat)
  | unsupportedType (kindName : List Nat)
deriving DecidableEq, Repr

mutual

/-- `serialize` from `to_msgpack.rs`: dispatch on the descriptor kind,
emit scalar encodings or a map of wire-name/value pairs, reject
everything else. The writer is an infallible in-memory buffer, so the
emitted bytes are returned; errors are the function's `Err` returns. -/
def serialize : Value → Except SerError (List Nat)
  | .scalar (.string bs) => .ok (write_str bs)
  | .scalar (.u64v n) => .ok (write_u64 n)
  | .scalar (.u32v n) => .ok (write_u32 n)
  | .scalar (.u16v n) => .ok (write_u16 n)
  | .scalar (.u8v n) => .ok (write_u8 n)
  | .scalar (.i64v n) => .ok (write_i64 n)
  | .scalar (.i32v n) => .ok (write_i32 n)
  | .scalar (.i16v n) => .ok (write_i16 n)
  | .scalar (.i8v n) => .ok (write_i8 n)
  | .scalar (.unknownScalar t) => .error (.unsupportedScalar t)
  | .struct fs =>
    match serializeFields fs with
    | .ok body => .ok (write_map_len fs.length ++ body)
    | .error e => .error e
  | .otherDef k => .error (.unsupportedType k)

/-- The field loop of the `Def::Struct` branch: for each
`(field, field_peek)` pair in descriptor order, `write_str(field.name)`
then the recursive `serialize`, short-circuiting on the first error. -/
def serializeFields : List (List Nat × Value) → Except SerError (List Nat)
  | [] => .ok []
  | (name, v) :: rest =>
    match serialize v with
    | .error e => .error e
    | .ok b =>
      match serializeFields rest with
      | .error e => .error e
      | .ok r => .ok (write_str name ++ b ++ r)

end

/-- `to_vec` from `to_msgpack.rs`: builds a `Vec`, runs `serialize`, and
calls `.unwrap()` on the result. The unwrap panic is modelled as `none`:
on an inner error, `to_vec` returns no value at all (it aborts), while on
success it returns the buffer. -/
def to_vec (v : Value) : Option (List Nat) :=
  match serialize v with
  | .ok bs => some bs
  | .error _ => none

instance {ε α : Type} [DecidableEq ε] [DecidableEq α] : DecidableEq (Except ε α) := fun a b =>
  match a, b with
  | .ok x, .ok y =>
    if h : x = y then .isTrue (by rw [h]) else .isFalse (by intro hc; cases hc; exact h rfl)
  | .error x, .error y =>
    if h : x = y then .isTrue (by rw [h]) else .isFalse (by intro hc; cases hc; exact h rfl)
  | .ok _, .error _ => .isFalse (by intro hc; cases hc)
  | .error _, .ok _ => .isFalse (by intro hc; cases hc)

/-! ## Naming engine (`facet-derive-emit/src/lib.rs`)

Identifiers are modelled as `List Char`. Character classification follows
the Rust functions on the inputs the naming engine sees: `Char.isUpper`,
`Char.isLower`, `Char.isDigit`, `Char.toUpper`, `Char.toLower` model
`char::is_uppercase` / `is_lowercase` / `is_ascii_digit` /
`to_uppercase` / `to_lowercase` on the ASCII fragment (identifiers in
the claims are ASCII; `is_ascii_digit` is exactly `Char.isDigit`), and
`rustIsWhitespace` is the full Unicode `White_Space` set used by
`char::is_whitespace`. -/

/-- `char::is_whitespace`: the Unicode `White_Space` code points. -/
def rustIsWhitespace (c : Char) : Bool :=
  c.toNat ∈ [0x09, 0x0A, 0x0B, 0x0C, 0x0D, 0x20, 0x85, 0xA0, 0x1680,
    0x2000, 0x2001, 0x2002, 0x2003, 0x2004, 0x2005, 0x2006, 0x2007,
    0x2008, 0x2009, 0x200A, 0x2028, 0x2029, 0x202F, 0x205F, 0x3000]

/-- The separator test of `split_into_words`:
`c == '_' || c == '-' || c.is_whitespace()`. -/
def isSeparatorChar (c : Char) : Bool :=
  c = '_' || c = '-' || rustIsWhitespace c

/-- The `next_char_is_lowercase` computation inside `split_into_words`:
`input.chars().skip_while(|&x| x != c).nth(1).is_some_and(|next| next.is_lowercase())`.
Note it scans from the start of the whole input for the first occurrence
of `c` by value, then looks at the character after it. -/
def nextCharIsLowercase (input : List Char) (c : Char) : Bool :=
  match (input.dropWhile (fun x => x != c)).drop 1 with
  | [] => false
  | x :: _ => x.isLower

/-- The character loop of `split_into_words`, with state
`(current_word, prev_is_lowercase, prev_is_uppercase)`; `input` is the
whole input string, used by `nextCharIsLowercase`. Words are emitted in
the order `words.push` runs. -/
def splitGo (input : List Char) : List Char → List Char → Bool → Bool → List (List Char)
  | [], current, _, _ => if current = [] then [] else [current]
  | c :: rest, current, prevLo, prevUp =>
    if isSeparatorChar c then
      (if current = [] then [] else [current]) ++ splitGo input rest [] false false
    else if c.isUpper then
      if current ≠ [] ∧ (prevLo = true ∨ (prevUp = true ∧ nextCharIsLowercase input c = true)) then
        current :: splitGo input rest [c] false true
      else
        splitGo input rest (current ++ [c]) false true
    else
      -- lowercase or digit: push the char; the long comment block in the
      -- source performs no action on this branch
      splitGo input rest (current ++ [c]) true false

/-- `split_into_words` from `facet-derive-emit/src/lib.rs`. -/
def split_into_words (input : List Char) : List (List Char) :=
  if input = [] then []
  else (splitGo input input [] false false).filter (fun w => !w.isEmpty)

/-- `to_lowercase`: `input.to_lowercase()`. -/
def to_lowercase (input : List Char) : List Char :=
  input.map Char.toLower

/-- `to_uppercase`: `input.to_uppercase()`. -/
def to_uppercase (input : List Char) : List Char :=
  input.map Char.toUpper

/-- The per-word transform of `to_pascal_case`: first char uppercased,
rest of the word lowercased. -/
def pascalWord (w : List Char) : List Char :=
  match w with
  | [] => []
  | c :: rest => c.toUpper :: rest.map Char.toLower

/-- `to_pascal_case` from `facet-derive-emit/src/lib.rs`. -/
def to_pascal_case (input : List Char) : List Char :=
  ((split_into_words input).map pascalWord).flatten

/-- `to_camel_case`: pascal-case, then lowercase the first character. -/
def to_camel_case (input : List Char) : List Char :=
  match to_pascal_case input with
  | [] => []
  | c :: rest => c.toLower :: rest

/-- `to_snake_case`: lowercased words joined with `'_'`. -/
def to_snake_case (input : List Char) : List Char :=
  List.intercalate ['_'] ((split_into_words input).map (List.map Char.toLower))

/-- `to_screaming_snake_case`: uppercased words joined with `'_'`. -/
def to_screaming_snake_case (input : List Char) : List Char :=
  List.intercalate ['_'] ((split_into_words input).map (List.map Char.toUpper))

/-- `to_kebab_case`: lowercased words joined with `'-'`. -/
def to_kebab_case (input : List Char) : List Char :=
  List.intercalate ['-'] ((split_into_words input).map (List.map Char.toLower))

/-- `to_screaming_kebab_case`: uppercased words joined with `'-'`. -/
def to_screaming_kebab_case (input : List Char) : List Char :=
  List.intercalate ['-'] ((split_into_words input).map (List.map Char.toUpper))

/-- `RenameRule` from `facet-derive-emit/src/lib.rs`. -/
inductive RenameRule where
  | Lowercase
  | Uppercase
  | PascalCase
  | CamelCase
  | SnakeCase
  | ScreamingSnakeCase
  | KebabCase
  | ScreamingKebabCase
  | Passthrough
deriving DecidableEq, Repr

/-- `RenameRule::from_str`. -/
def RenameRule.from_str (rule : List Char) : Option RenameRule :=
  if rule = "lowercase".toList then some .Lowercase
  else if rule = "UPPERCASE".toList then some .Uppercase
  else if rule = "PascalCase".toList then some .PascalCase
  else if rule = "camelCase".toList then some .CamelCase
  else if rule = "snake_case".toList then some .SnakeCase
  else if rule = "SCREAMING_SNAKE_CASE".toList then some .ScreamingSnakeCase
  else if rule = "kebab-case".toList then some .KebabCase
  else if rule = "SCREAMING-KEBAB-CASE".toList then some .ScreamingKebabCase
  else none

/-- `RenameRule::apply`. -/
def RenameRule.apply (self : RenameRule) (input : List Char) : List Char :=
  match self with
  | .Lowercase => to_lowercase input
  | .Uppercase => to_uppercase input
  | .PascalCase => to_pascal_case input
  | .CamelCase => to_camel_case input
  | .SnakeCase => to_snake_case input
  | .ScreamingSnakeCase => to_screaming_snake_case input
  | .KebabCase => to_kebab_case input
  | .ScreamingKebabCase => to_screaming_kebab_case input
  | .Passthrough => input

/-! ## Wire-name computation
(`gen_struct_field` / `build_container_attributes`) -/

/-- A field attribute as seen by the metadata-name computation of
`gen_struct_field`: a `rename = "…"` entry sets `name_for_metadata` and
`has_explicit_rename`; every other field attribute (sensitive, default,
skip_serializing…, arbitrary, doc, repr) leaves both untouched. -/
inductive FieldAttr where
  | rename (value : List Char)
  | otherFieldAttr
deriving DecidableEq, Repr

/-- The attribute loop of `gen_struct_field`, restricted to the state it
threads for the metadata name: `(has_explicit_rename, name_for_metadata)`,
starting at `(false, normalized_field_name)`. A later `rename` overwrites
an earlier one, as in the source. -/
def renameFold : List FieldAttr → Bool → List Char → Bool × List Char
  | [], hasR, name => (hasR, name)
  | .rename v :: rest, _, _ => renameFold rest true v
  | .otherFieldAttr :: rest, hasR, name => renameFold rest hasR name

/-- `fi.normalized_field_name.chars().all(|c| c.is_ascii_digit())`:
the tuple-index test. -/
def isNumericName (s : List Char) : Bool :=
  s.all (fun c => c.isDigit)

/-- The `name_for_metadata` finally baked into the generated
`::facet::Field::builder().name("…")` call of `gen_struct_field`:
the attribute fold, then the `rename_all` application guarded by
`!has_explicit_rename && rule != Passthrough` and the non-numeric-name
test. -/
def gen_struct_field_name (attrs : List FieldAttr) (rule : RenameRule)
    (normalized : List Char) : List Char :=
  let st := renameFold attrs false normalized
  if st.1 = false ∧ rule ≠ .Passthrough ∧ isNumericName normalized = false then
    rule.apply normalized
  else
    st.2

/-- A container attribute as seen by the `rename_all` computation of
`build_container_attributes`: either a parsed `rename_all` value (from
`FacetInner::RenameAll` or the `Other` branch's `rename_all = "…"`
key/value form, modelled post-split), or anything else, which does not
touch the rule. -/
inductive ContainerAttr where
  | renameAll (value : List Char)
  | otherContainerAttr
deriving DecidableEq, Repr

/-- The attribute loop of `build_container_attributes`, restricted to
`rename_all_rule`: each `rename_all` whose value parses via
`RenameRule::from_str` overwrites the rule; unparsable values and other
attributes leave it unchanged. -/
def containerRuleFold : List ContainerAttr → Option RenameRule → Option RenameRule
  | [], acc => acc
  | .renameAll v :: rest, acc =>
    match RenameRule.from_str v with
    | some r => containerRuleFold rest (some r)
    | none => containerRuleFold rest acc
  | .otherContainerAttr :: rest, acc => containerRuleFold rest acc

/-- The `rename_rule` field of the `ContainerAttributes` returned by
`build_container_attributes`: `rename_all_rule.unwrap_or(Passthrough)`. -/
def build_container_rename_rule (attrs : List ContainerAttr) : RenameRule :=
  (containerRuleFold attrs none).getD .Passthrough

/-! ## Spec-side encoding tables (§6 of the spec)

These two definitions follow the range-to-encoding table of the spec's
§6, written from the spec's words, to be compared with the `write_*`
functions translated from the source. "k-byte big-endian value" is spelt
out as the k base-256 digits, most significant first; a negative value's
two's-complement bit pattern in width `2^w` is `2^w + n`. -/

/-- The unsigned-integer row of the spec's §6 table: positive fixint for
0–127, `0xcc`+1 byte for 128–255, `0xcd`+2-byte BE for 256–65535,
`0xce`+4-byte BE for 65536–4294967295, `0xcf`+8-byte BE above. -/
def specUnsignedBytes (n : Nat) : List Nat :=
  if n ≤ 127 then [n]
  else if n ≤ 255 then [0xcc, n]
  else if n ≤ 65535 then [0xcd, n / 2 ^ 8 % 256, n % 256]
  else if n ≤ 4294967295 then
    [0xce, n / 2 ^ 24 % 256, n / 2 ^ 16 % 256, n / 2 ^ 8 % 256, n % 256]
  else
    [0xcf, n / 2 ^ 56 % 256, n / 2 ^ 48 % 256, n / 2 ^ 40 % 256, n / 2 ^ 32 % 256,
     n / 2 ^ 24 % 256, n / 2 ^ 16 % 256, n / 2 ^ 8 % 256, n % 256]

/-- The signed-integer row of the spec's §6 table: negative fixint for
−32..−1, `0xd0`+1B for −128..−33, `0xd1`+2B BE for −32768..−129,
`0xd2`+4B BE for −2147483648..−32769, `0xd3`+8B BE below that, the
shared positive fixint for 0..127, and the unsigned encodings for all
other nonnegative values. -/
def specSignedBytes (n : Int) : List Nat :=
  if -32 ≤ n ∧ n ≤ -1 then [(256 + n).toNat]
  else if -128 ≤ n ∧ n ≤ -33 then [0xd0, (256 + n).toNat]
  else if -32768 ≤ n ∧ n ≤ -129 then
    [0xd1, (65536 + n).toNat / 2 ^ 8 % 256, (65536 + n).toNat % 256]
  else if -2147483648 ≤ n ∧ n ≤ -32769 then
    [0xd2, (4294967296 + n).toNat / 2 ^ 24 % 256, (4294967296 + n).toNat / 2 ^ 16 % 256,
     (4294967296 + n).toNat / 2 ^ 8 % 256, (4294967296 + n).toNat % 256]
  else if n ≤ -2147483649 then
    [0xd3, (18446744073709551616 + n).toNat / 2 ^ 56 % 256,
     (18446744073709551616 + n).toNat / 2 ^ 48 % 256,
     (18446744073709551616 + n).toNat / 2 ^ 40 % 256,
     (18446744073709551616 + n).toNat / 2 ^ 32 % 256,
     (18446744073709551616 + n).toNat / 2 ^ 24 % 256,
     (18446744073709551616 + n).toNat / 2 ^ 16 % 256,
     (18446744073709551616 + n).toNat / 2 ^ 8 % 256,
     (18446744073709551616 + n).toNat % 256]
  else specUnsignedBytes n.toNat

/-! ## Helper lemmas: the unsigned writers match the table -/

lemma write_u64_spec (n : Nat) (h : n < 2 ^ 64) : write_u64 n = specUnsignedBytes n := by
  unfold write_u64 specUnsignedBytes
  split_ifs <;> simp [be2, be4, be8, List.cons.injEq] <;> omega

lemma write_u32_spec (n : Nat) (h : n < 2 ^ 32) : write_u32 n = specUnsignedBytes n := by
  unfold write_u32 specUnsignedBytes
  split_ifs <;> simp [be2, be4, List.cons.injEq] <;> omega

lemma write_u16_spec (n : Nat) (h : n < 2 ^ 16) : write_u16 n = specUnsignedBytes n := by
  unfold write_u16 specUnsignedBytes
  split_ifs <;> simp [be2, List.cons.injEq] <;> omega

lemma write_u8_spec (n : Nat) (h : n < 2 ^ 8) : write_u8 n = specUnsignedBytes n := by
  unfold write_u8 specUnsignedBytes
  split_ifs <;> simp [List.cons.injEq] <;> omega

/-! ## Helper lemmas: width independence of the unsigned writers -/

lemma write_u8_eq_u64 (n : Nat) (h : n < 2 ^ 8) : write_u8 n = write_u64 n := by
  unfold write_u8 write_u64
  split_ifs <;> simp [List.cons.injEq] <;> omega

lemma write_u16_eq_u64 (n : Nat) (h : n < 2 ^ 16) : write_u16 n = write_u64 n := by
  unfold write_u16 write_u64
  split_ifs <;> simp [be2, List.cons.injEq] <;> omega

lemma write_u32_eq_u64 (n : Nat) (h : n < 2 ^ 32) : write_u32 n = write_u64 n := by
  unfold write_u32 write_u64
  split_ifs <;> simp [be2, be4, List.cons.injEq] <;> omega

/-! ## Helper lemmas: the signed writers match the signed table -/

lemma write_i8_spec (n : Int) (hlo : -128 ≤ n) (hhi : n ≤ 127) :
    write_i8 n = specSignedBytes n := by
  unfold write_i8 specSignedBytes specUnsignedBytes
  by_cases hA : -32 ≤ n ∧ n ≤ -1
  · rw [if_pos hA, if_pos hA]
    simp only [toByte, List.cons.injEq, and_true]
    omega
  by_cases hB : -128 ≤ n ∧ n ≤ -33
  · rw [if_neg hA, if_pos hB, if_neg hA, if_pos hB]
    simp only [toByte, List.cons.injEq, true_and, and_true]
    omega
  · have hC : ¬(-32768 ≤ n ∧ n ≤ -129) := by omega
    have hD : ¬(-2147483648 ≤ n ∧ n ≤ -32769) := by omega
    have hE : ¬(n ≤ -2147483649) := by omega
    have hF : 0 ≤ n ∧ n ≤ 127 := by omega
    have hU : n.toNat ≤ 127 := by omega
    rw [if_neg hA, if_neg hB, if_pos hF, if_neg hA, if_neg hB, if_neg hC, if_neg hD,
      if_neg hE, if_pos hU]
    simp only [toByte, List.cons.injEq, and_true]
    omega

lemma write_i16_spec (n : Int) (hlo : -32768 ≤ n) (hhi : n ≤ 32767) :
    write_i16 n = specSignedBytes n := by
  unfold write_i16 specSignedBytes specUnsignedBytes
  by_cases hA : -32 ≤ n ∧ n ≤ -1
  · rw [if_pos hA, if_pos hA]
    simp only [toByte, List.cons.injEq, and_true]
    omega
  by_cases hB : -128 ≤ n ∧ n ≤ -33
  · rw [if_neg hA, if_pos hB, if_neg hA, if_pos hB]
    simp only [toByte, List.cons.injEq, true_and, and_true]
    omega
  by_cases hC : -32768 ≤ n ∧ n ≤ -129
  · rw [if_neg hA, if_neg hB, if_pos hC, if_neg hA, if_neg hB, if_pos hC]
    simp only [toBits, be2, List.cons.injEq, true_and, and_true]
    omega
  · have hD : ¬(-2147483648 ≤ n ∧ n ≤ -32769) := by omega
    have hE : ¬(n ≤ -2147483649) := by omega
    have hpos : 0 ≤ n := by omega
    rw [if_neg hA, if_neg hB, if_neg hC, if_neg hA, if_neg hB, if_neg hC, if_neg hD, if_neg hE]
    by_cases hF : n ≤ 127
    · have w : 0 ≤ n ∧ n ≤ 127 := ⟨hpos, hF⟩
      have u : n.toNat ≤ 127 := by omega
      rw [if_pos w, if_pos u]
      simp only [toByte, List.cons.injEq, and_true]
      omega
    by_cases hG : n ≤ 255
    · have w1 : ¬(0 ≤ n ∧ n ≤ 127) := by omega
      have w2 : 128 ≤ n ∧ n ≤ 255 := by omega
      have u1 : ¬(n.toNat ≤ 127) := by omega
      have u2 : n.toNat ≤ 255 := by omega
      rw [if_neg w1, if_pos w2, if_neg u1, if_pos u2]
      simp only [toByte, List.cons.injEq, true_and, and_true]
      omega
    · have w1 : ¬(0 ≤ n ∧ n ≤ 127) := by omega
      have w2 : ¬(128 ≤ n ∧ n ≤ 255) := by omega
      have w3 : 256 ≤ n ∧ n ≤ 32767 := by omega
      have u1 : ¬(n.toNat ≤ 127) := by omega
      have u2 : ¬(n.toNat ≤ 255) := by omega
      have u3 : n.toNat ≤ 65535 := by omega
      rw [if_neg w1, if_neg w2, if_pos w3, if_neg u1, if_neg u2, if_pos u3]
      simp only [toBits, be2, List.cons.injEq, true_and, and_true]
      omega

lemma write_i32_spec (n : Int) (hlo : -2147483648 ≤ n) (hhi : n ≤ 2147483647) :
    write_i32 n = specSignedBytes n := by
  unfold write_i32 specSignedBytes specUnsignedBytes
  by_cases hA : -32 ≤ n ∧ n ≤ -1
  · rw [if_pos hA, if_pos hA]
    simp only [toByte, List.cons.injEq, and_true]
    omega
  by_cases hB : -128 ≤ n ∧ n ≤ -33
  · rw [if_neg hA, if_pos hB, if_neg hA, if_pos hB]
    simp only [toByte, List.cons.injEq, true_and, and_true]
    omega
  by_cases hC : -32768 ≤ n ∧ n ≤ -129
  · rw [if_neg hA, if_neg hB, if_pos hC, if_neg hA, if_neg hB, if_pos hC]
    simp only [toBits, be2, List.cons.injEq, true_and, and_true]
    omega
  by_cases hD : -2147483648 ≤ n ∧ n ≤ -32769
  · rw [if_neg hA, if_neg hB, if_neg hC, if_pos hD, if_neg hA, if_neg hB, if_neg hC, if_pos hD]
    simp only [toBits, be4, List.cons.injEq, true_and, and_true]
    omega
  · have hE : ¬(n ≤ -2147483649) := by omega
    have hpos : 0 ≤ n := by omega
    rw [if_neg hA, if_neg hB, if_neg hC, if_neg hD, if_neg hA, if_neg hB, if_neg hC,
      if_neg hD, if_neg hE]
    by_cases hF : n ≤ 127
    · have w : 0 ≤ n ∧ n ≤ 127 := ⟨hpos, hF⟩
      have u : n.toNat ≤ 127 := by omega
      rw [if_pos w, if_pos u]
      simp only [toByte, List.cons.injEq, and_true]
      omega
    by_cases hG : n ≤ 255
    · have w1 : ¬(0 ≤ n ∧ n ≤ 127) := by omega
      have w2 : 128 ≤ n ∧ n ≤ 255 := by omega
      have u1 : ¬(n.toNat ≤ 127) := by omega
      have u2 : n.toNat ≤ 255 := by omega
      rw [if_neg w1, if_pos w2, if_neg u1, if_pos u2]
      simp only [toByte, List.cons.injEq, true_and, and_true]
      omega
    by_cases hH : n ≤ 65535
    · have w1 : ¬(0 ≤ n ∧ n ≤ 127) := by omega
      have w2 : ¬(128 ≤ n ∧ n ≤ 255) := by omega
      have w3 : 256 ≤ n ∧ n ≤ 65535 := by omega
      have u1 : ¬(n.toNat ≤ 127) := by omega
      have u2 : ¬(n.toNat ≤ 255) := by omega
      have u3 : n.toNat ≤ 65535 := by omega
      rw [if_neg w1, if_neg w2, if_pos w3, if_neg u1, if_neg u2, if_pos u3]
      simp only [toBits, be2, List.cons.injEq, true_and, and_true]
      omega
    · have w1 : ¬(0 ≤ n ∧ n ≤ 127) := by omega
      have w2 : ¬(128 ≤ n ∧ n ≤ 255) := by omega
      have w3 : ¬(256 ≤ n ∧ n ≤ 65535) := by omega
      have w4 : 65536 ≤ n ∧ n ≤ 2147483647 := by omega
      have u1 : ¬(n.toNat ≤ 127) := by omega
      have u2 : ¬(n.toNat ≤ 255) := by omega
      have u3 : ¬(n.toNat ≤ 65535) := by omega
      have u4 : n.toNat ≤ 4294967295 := by omega
      rw [if_neg w1, if_neg w2, if_neg w3, if_pos w4, if_neg u1, if_neg u2, if_neg u3,
        if_pos u4]
      simp only [toBits, be4, List.cons.injEq, true_and, and_true]
      omega

lemma write_i64_spec (n : Int) (hlo : -9223372036854775808 ≤ n)
    (hhi : n ≤ 9223372036854775807) :
    write_i64 n = specSignedBytes n := by
  unfold write_i64 specSignedBytes specUnsignedBytes
  by_cases hA : -32 ≤ n ∧ n ≤ -1
  · rw [if_pos hA, if_pos hA]
    simp only [toByte, List.cons.injEq, and_true]
    omega
  by_cases hB : -128 ≤ n ∧ n ≤ -33
  · rw [if_neg hA, if_pos hB, if_neg hA, if_pos hB]
    simp only [toByte, List.cons.injEq, true_and, and_true]
    omega
  by_cases hC : -32768 ≤ n ∧ n ≤ -129
  · rw [if_neg hA, if_neg hB, if_pos hC, if_neg hA, if_neg hB, if_pos hC]
    simp only [toBits, be2, List.cons.injEq, true_and, and_true]
    omega
  by_cases hD : -2147483648 ≤ n ∧ n ≤ -32769
  · rw [if_neg hA, if_neg hB, if_neg hC, if_pos hD, if_neg hA, if_neg hB, if_neg hC, if_pos hD]
    simp only [toBits, be4, List.cons.injEq, true_and, and_true]
    omega
  by_cases hE : -9223372036854775808 ≤ n ∧ n ≤ -2147483649
  · have hE' : n ≤ -2147483649 := hE.2
    rw [if_neg hA, if_neg hB, if_neg hC, if_neg hD, if_pos hE, if_neg hA, if_neg hB,
      if_neg hC, if_neg hD, if_pos hE']
    simp only [toBits, be8, List.cons.injEq, true_and, and_true]
    omega
  · have hE' : ¬(n ≤ -2147483649) := by omega
    have hpos : 0 ≤ n := by omega
    rw [if_neg hA, if_neg hB, if_neg hC, if_neg hD, if_neg hE, if_neg hA, if_neg hB,
      if_neg hC, if_neg hD, if_neg hE']
    by_cases hF : n ≤ 127
    · have w : 0 ≤ n ∧ n ≤ 127 := ⟨hpos, hF⟩
      have u : n.toNat ≤ 127 := by omega
      rw [if_pos w, if_pos u]
      simp only [toByte, List.cons.injEq, and_true]
      omega
    by_cases hG : n ≤ 255
    · have w1 : ¬(0 ≤ n ∧ n ≤ 127) := by omega
      have w2 : 128 ≤ n ∧ n ≤ 255 := by omega
      have u1 : ¬(n.toNat ≤ 127) := by omega
      have u2 : n.toNat ≤ 255 := by omega
      rw [if_neg w1, if_pos w2, if_neg u1, if_pos u2]
      simp only [toByte, List.cons.injEq, true_and, and_true]
      omega
    by_cases hH : n ≤ 65535
    · have w1 : ¬(0 ≤ n ∧ n ≤ 127) := by omega
      have w2 : ¬(128 ≤ n ∧ n ≤ 255) := by omega
      have w3 : 256 ≤ n ∧ n ≤ 65535 := by omega
      have u1 : ¬(n.toNat ≤ 127) := by omega
      have u2 : ¬(n.toNat ≤ 255) := by omega
      have u3 : n.toNat ≤ 65535 := by omega
      rw [if_neg w1, if_neg w2, if_pos w3, if_neg u1, if_neg u2, if_pos u3]
      simp only [toBits, be2, List.cons.injEq, true_and, and_true]
      omega
    by_cases hI : n ≤ 4294967295
    · have w1 : ¬(0 ≤ n ∧ n ≤ 127) := by omega
      have w2 : ¬(128 ≤ n ∧ n ≤ 255) := by omega
      have w3 : ¬(256 ≤ n ∧ n ≤ 65535) := by omega
      have w4 : 65536 ≤ n ∧ n ≤ 4294967295 := by omega
      have u1 : ¬(n.toNat ≤ 127) := by omega
      have u2 : ¬(n.toNat ≤ 255) := by omega
      have u3 : ¬(n.toNat ≤ 65535) := by omega
      have u4 : n.toNat ≤ 4294967295 := by omega
      rw [if_neg w1, if_neg w2, if_neg w3, if_pos w4, if_neg u1, if_neg u2, if_neg u3,
        if_pos u4]
      simp only [toBits, be4, List.cons.injEq, true_and, and_true]
      omega
    · have w1 : ¬(0 ≤ n ∧ n ≤ 127) := by omega
      have w2 : ¬(128 ≤ n ∧ n ≤ 255) := by omega
      have w3 : ¬(256 ≤ n ∧ n ≤ 65535) := by omega
      have w4 : ¬(65536 ≤ n ∧ n ≤ 4294967295) := by omega
      have w5 : 4294967296 ≤ n ∧ n ≤ 9223372036854775807 := by omega
      have u1 : ¬(n.toNat ≤ 127) := by omega
      have u2 : ¬(n.toNat ≤ 255) := by omega
      have u3 : ¬(n.toNat ≤ 65535) := by omega
      have u4 : ¬(n.toNat ≤ 4294967295) := by omega
      rw [if_neg w1, if_neg w2, if_neg w3, if_neg w4, if_pos w5, if_neg u1, if_neg u2,
        if_neg u3, if_neg u4]
      simp only [toBits, be8, List.cons.injEq, true_and, and_true]
      omega

/-- For nonnegative `n` the signed table defers to the unsigned table. -/
lemma specSignedBytes_nonneg (n : Int) (h : 0 ≤ n) :
    specSignedBytes n = specUnsignedBytes n.toNat := by
  unfold specSignedBytes
  rw [if_neg (by omega), if_neg (by omega), if_neg (by omega), if_neg (by omega),
    if_neg (by omega)]

/-! ## Helper lemmas: the signed writers agree with the unsigned ones on
nonnegative values -/

lemma write_i8_nonneg (n : Int) (h0 : 0 ≤ n) (h1 : n ≤ 127) :
    write_i8 n = write_u8 n.toNat := by
  rw [write_i8_spec n (by omega) h1, specSignedBytes_nonneg n h0,
    write_u8_spec n.toNat (by omega)]

lemma write_i16_nonneg (n : Int) (h0 : 0 ≤ n) (h1 : n ≤ 32767) :
    write_i16 n = write_u16 n.toNat := by
  rw [write_i16_spec n (by omega) h1, specSignedBytes_nonneg n h0,
    write_u16_spec n.toNat (by omega)]

lemma write_i32_nonneg (n : Int) (h0 : 0 ≤ n) (h1 : n ≤ 2147483647) :
    write_i32 n = write_u32 n.toNat := by
  rw [write_i32_spec n (by omega) h1, specSignedBytes_nonneg n h0,
    write_u32_spec n.toNat (by omega)]

lemma write_i64_nonneg (n : Int) (h0 : 0 ≤ n) (h1 : n ≤ 9223372036854775807) :
    write_i64 n = write_u64 n.toNat := by
  rw [write_i64_spec n (by omega) h1, specSignedBytes_nonneg n h0,
    write_u64_spec n.toNat (by omega)]

/-! ## Helper lemmas: the struct field loop -/

/-- When every field of `fs` serializes to the corresponding bytes in
`bs`, the field loop emits, per field in order, the wire name as a
string followed by the child bytes. -/
lemma serializeFields_ok (fs : List (List Nat × Value)) (bs : List (List Nat))
    (h : List.Forall₂ (fun f b => serialize f.2 = Except.ok b) fs bs) :
    serializeFields fs =
      .ok ((List.zipWith (fun f b => write_str f.1 ++ b) fs bs).flatten) := by
  induction h with
  | nil => rfl
  | cons hab htail ih =>
    rename_i a b l1 l2
    obtain ⟨name, v⟩ := a
    simp only at hab
    simp [serializeFields, hab, ih]

/-- If every field before `(name, v)` serializes successfully and `v`
fails with `e`, the field loop fails with `e`. -/
lemma serializeFields_append_error (pre : List (List Nat × Value)) (bs : List (List Nat))
    (name : List Nat) (v : Value) (post : List (List Nat × Value)) (e : SerError)
    (h : List.Forall₂ (fun f b => serialize f.2 = Except.ok b) pre bs)
    (hv : serialize v = .error e) :
    serializeFields (pre ++ (name, v) :: post) = .error e := by
  induction h with
  | nil => simp [serializeFields, hv]
  | cons hab htail ih =>
    rename_i a b l1 l2
    obtain ⟨nm, w⟩ := a
    simp only at hab
    simp [serializeFields, hab, ih]

/-! ## Claim theorems -/

/-- C2: a value of kind Struct serializes as a map header whose length
is the declared field count, followed by, for each field in descriptor
order, the field's wire name as a string and then the recursively
serialized child value; no field is reordered, filtered, or skipped.
`bs` lists the child encodings, one per field in order. -/
theorem struct_serialization_order (fs : List (List Nat × Value)) (bs : List (List Nat))
    (h : List.Forall₂ (fun f b => serialize f.2 = Except.ok b) fs bs) :
    serialize (.struct fs) =
      .ok (write_map_len fs.length ++
        (List.zipWith (fun f b => write_str f.1 ++ b) fs bs).flatten) := by
  have hf := serializeFields_ok fs bs h
  simp [serialize, hf]

/-- Witness for C2: a struct with fields `a, b, c` (in that declared
order) holding `u8` values 1, 2, 3 serializes as a 3-entry fixmap with
keys `a`, `b`, `c` in exactly that order. -/
theorem struct_serialization_order_witness :
    serialize (.struct [([97], .scalar (.u8v 1)), ([98], .scalar (.u8v 2)),
      ([99], .scalar (.u8v 3))]) =
      .ok [0x83, 0xa1, 97, 1, 0xa1, 98, 2, 0xa1, 99, 3] := by
  have h := struct_serialization_order
    [([97], Value.scalar (.u8v 1)), ([98], Value.scalar (.u8v 2)),
      ([99], Value.scalar (.u8v 3))]
    [[1], [2], [3]]
    (List.Forall₂.cons (by decide) (List.Forall₂.cons (by decide)
      (List.Forall₂.cons (by decide) List.Forall₂.nil)))
  exact h.trans (by decide)

/-- C5: a value whose descriptor kind has no registered encoding path —
a scalar whose identity is none of the recognized ones (e.g. `Opaque`),
or any non-Scalar, non-Struct `Def` — fails with an unsupported-type
error and never yields any byte output. -/
theorem unsupported_type_rejection (t k : List Nat) :
    serialize (.scalar (.unknownScalar t)) = .error (.unsupportedScalar t) ∧
    serialize (.otherDef k) = .error (.unsupportedType k) ∧
    (∀ bs : List Nat, serialize (.scalar (.unknownScalar t)) ≠ .ok bs) ∧
    (∀ bs : List Nat, serialize (.otherDef k) ≠ .ok bs) := by
  refine ⟨rfl, rfl, ?_, ?_⟩ <;> intro bs h <;> simp [serialize] at h

/-- Witness for C5 at the `Opaque` scalar identity (type name `"Opaque"`
as bytes) and at an other-kind descriptor. -/
theorem unsupported_type_rejection_witness :
    serialize (.scalar (.unknownScalar [79, 112, 97, 113, 117, 101])) =
      .error (.unsupportedScalar [79, 112, 97, 113, 117, 101]) ∧
    serialize (.otherDef [69, 110, 117, 109]) ≠
      .ok [] :=
  ⟨(unsupported_type_rejection [79, 112, 97, 113, 117, 101] [69, 110, 117, 109]).1,
   (unsupported_type_rejection [79, 112, 97, 113, 117, 101] [69, 110, 117, 109]).2.2.2 []⟩

/-- C6: the struct `{name: "Ada", age: 36u8}` with no rename rule
serializes to exactly fixmap(2), fixstr("name"), fixstr("Ada"),
fixstr("age"), positive-fixint(36). -/
theorem ada_struct_end_to_end :
    serialize (.struct [([0x6e, 0x61, 0x6d, 0x65], .scalar (.string [0x41, 0x64, 0x61])),
      ([0x61, 0x67, 0x65], .scalar (.u8v 36))]) =
      .ok [0x82, 0xa4, 0x6e, 0x61, 0x6d, 0x65, 0xa3, 0x41, 0x64, 0x61,
        0xa3, 0x61, 0x67, 0x65, 0x24] := by decide

/-- C1 counterexample: on a value with no encoding path, the inner
`serialize` produces a classified error, but the public entry point
`to_vec` calls `.unwrap()` on it and panics (modelled as `none`): it
returns neither the encoded bytes nor an error value to its caller, so
the claim as stated — the entry point always returns bytes or a
classified error — fails at this input. -/
theorem to_vec_panics_on_error_cx :
    serialize (.scalar (.unknownScalar [79, 112, 97, 113, 117, 101])) =
      .error (.unsupportedScalar [79, 112, 97, 113, 117, 101]) ∧
    to_vec (.scalar (.unknownScalar [79, 112, 97, 113, 117, 101])) = none := by decide

/-- C1 (amended): `serialize` returns either the complete encoded bytes
or a classified error and propagates every inner failure to its caller
unchanged (no recovery or retry); `to_vec` returns the complete bytes on
success but unwraps and panics on error rather than returning an error
value. -/
theorem serialize_error_propagation :
    (∀ (v : Value) (bs : List Nat), serialize v = .ok bs → to_vec v = some bs) ∧
    (∀ (v : Value) (e : SerError), serialize v = .error e → to_vec v = none) ∧
    (∀ (pre : List (List Nat × Value)) (bs : List (List Nat)) (name : List Nat)
        (v : Value) (post : List (List Nat × Value)) (e : SerError),
      List.Forall₂ (fun f b => serialize f.2 = Except.ok b) pre bs →
      serialize v = .error e →
      serialize (.struct (pre ++ (name, v) :: post)) = .error e) := by
  refine ⟨?_, ?_, ?_⟩
  · intro v bs h
    simp [to_vec, h]
  · intro v e h
    simp [to_vec, h]
  · intro pre bs name v post e h hv
    have hf := serializeFields_append_error pre bs name v post e h hv
    simp [serialize, hf]

/-- Witness for C1 (amended): a struct whose second field is an
unsupported kind fails with that field's classified error after the
first field succeeded. -/
theorem serialize_error_propagation_witness :
    serialize (.struct [([97], .scalar (.u8v 1)), ([98], .otherDef [76]),
      ([99], .scalar (.u8v 3))]) = .error (.unsupportedType [76]) := by
  have h := serialize_error_propagation.2.2 [([97], Value.scalar (.u8v 1))] [[1]] [98]
    (Value.otherDef [76]) [([99], Value.scalar (.u8v 3))] (SerError.unsupportedType [76])
    (List.Forall₂.cons (by decide) List.Forall₂.nil) (by decide)
  exact h

/-! ## Helper lemmas: the naming engine -/

/-- A map that fixes every element of a list is the identity on it. -/
lemma list_map_fix {f : Char → Char} (s : List Char) (h : ∀ c ∈ s, f c = c) :
    s.map f = s := by
  induction s with
  | nil => rfl
  | cons c rest ih =>
    simp only [List.map_cons, h c (by simp), List.cons.injEq, true_and]
    exact ih (fun x hx => h x (by simp [hx]))

/-- A separator character's code point is outside both Latin letter
ranges. -/
lemma sepChar_not_letter (c : Char) (h : isSeparatorChar c = true) :
    (c.toNat < 65 ∨ 90 < c.toNat) ∧ (c.toNat < 97 ∨ 122 < c.toNat) := by
  simp only [isSeparatorChar, Bool.or_eq_true, decide_eq_true_eq, rustIsWhitespace,
    List.mem_cons, List.not_mem_nil, or_false] at h
  rcases h with (h | h) | h
  · subst h; decide
  · subst h; decide
  · omega

/-- `char::to_lowercase` fixes separator characters. -/
lemma sep_toLower (c : Char) (h : isSeparatorChar c = true) : c.toLower = c := by
  have hb := (sepChar_not_letter c h).1
  show (if c.toNat ≥ 65 ∧ c.toNat ≤ 90 then Char.ofNat (c.toNat + 32) else c) = c
  rw [if_neg (by omega)]

/-- `char::to_uppercase` fixes separator characters. -/
lemma sep_toUpper (c : Char) (h : isSeparatorChar c = true) : c.toUpper = c := by
  have hb := (sepChar_not_letter c h).2
  show (if c.toNat ≥ 97 ∧ c.toNat ≤ 122 then Char.ofNat (c.toNat - 32) else c) = c
  rw [if_neg (by omega)]

/-- On a string of separators the word loop, started with an empty
current word, emits no words. -/
lemma splitGo_all_sep (input : List Char) (s : List Char)
    (h : ∀ c ∈ s, isSeparatorChar c = true) :
    splitGo input s [] false false = [] := by
  induction s with
  | nil => rfl
  | cons c rest ih =>
    have hc := h c (by simp)
    simp only [splitGo, hc, if_true, if_pos rfl, List.nil_append]
    exact ih (fun x hx => h x (by simp [hx]))

/-- `split_into_words` of a separators-only string is empty. -/
lemma split_into_words_all_sep (s : List Char)
    (h : ∀ c ∈ s, isSeparatorChar c = true) :
    split_into_words s = [] := by
  unfold split_into_words
  by_cases hs : s = []
  · rw [if_pos hs]
  · rw [if_neg hs, splitGo_all_sep s s h]
    rfl

/-- No `rename` attribute: the fold keeps its starting state. -/
lemma renameFold_no_rename (attrs : List FieldAttr) (b : Bool) (name : List Char)
    (h : ∀ a ∈ attrs, a = FieldAttr.otherFieldAttr) :
    renameFold attrs b name = (b, name) := by
  induction attrs with
  | nil => rfl
  | cons a rest ih =>
    have ha := h a (by simp)
    subst ha
    simp only [renameFold]
    exact ih (fun x hx => h x (by simp [hx]))

/-- A `rename` attribute followed by no further `rename` determines the
fold's result. -/
lemma renameFold_append (pre post : List FieldAttr) (v : List Char) (b : Bool)
    (name : List Char) (hpost : ∀ a ∈ post, a = FieldAttr.otherFieldAttr) :
    renameFold (pre ++ FieldAttr.rename v :: post) b name = (true, v) := by
  induction pre generalizing b name with
  | nil =>
    simp only [List.nil_append, renameFold]
    exact renameFold_no_rename post true v hpost
  | cons a pre ih =>
    cases a <;> simp only [List.cons_append, renameFold] <;> exact ih _ _

/-! ## Naming-engine claims -/

/-- C7 counterexample: `to_pascal_case` lowercases the tail of each
word, so on `"HTTPRequest"` it returns `"HttpRequest"`, not the claimed
`"HTTPRequest"`. -/
theorem pascal_acronym_cx :
    to_pascal_case "HTTPRequest".toList = "HttpRequest".toList ∧
    to_pascal_case "HTTPRequest".toList ≠ "HTTPRequest".toList := by decide

/-- C7 (amended): segmentation recognizes the acronym boundary —
`"HTTPRequest"` splits as `["HTTP", "Request"]` and `"fooBar"` as
`["foo", "Bar"]`, so `to_snake_case` gives `"http_request"` and
`"foo_bar"` — but `to_pascal_case` case-folds each word's tail, giving
`"HttpRequest"` rather than `"HTTPRequest"`. -/
theorem acronym_boundary_amended :
    split_into_words "HTTPRequest".toList = ["HTTP".toList, "Request".toList] ∧
    to_pascal_case "HTTPRequest".toList = "HttpRequest".toList ∧
    to_snake_case "HTTPRequest".toList = "http_request".toList ∧
    split_into_words "fooBar".toList = ["foo".toList, "Bar".toList] ∧
    to_snake_case "fooBar".toList = "foo_bar".toList := by decide

/-- C8 counterexample: `Passthrough` (and likewise `Lowercase`) maps the
separators-only string `"_"` to itself, not to the empty string the
claim requires of every rule. -/
theorem separator_only_cx :
    RenameRule.Passthrough.apply "_".toList = "_".toList ∧
    RenameRule.Lowercase.apply "_".toList = "_".toList ∧
    "_".toList ≠ ([] : List Char) := by decide

/-- C8 (amended): every rule maps the empty string to the empty string;
the six word-splitting rules map a separators-only string to the empty
string, while `Lowercase`, `Uppercase` and `Passthrough` return a
separators-only string unchanged. -/
theorem rename_rule_empty_and_separators :
    (∀ r : RenameRule, r.apply [] = []) ∧
    (∀ s : List Char, (∀ c ∈ s, isSeparatorChar c = true) →
      RenameRule.PascalCase.apply s = [] ∧ RenameRule.CamelCase.apply s = [] ∧
      RenameRule.SnakeCase.apply s = [] ∧ RenameRule.ScreamingSnakeCase.apply s = [] ∧
      RenameRule.KebabCase.apply s = [] ∧ RenameRule.ScreamingKebabCase.apply s = [] ∧
      RenameRule.Lowercase.apply s = s ∧ RenameRule.Uppercase.apply s = s ∧
      RenameRule.Passthrough.apply s = s) := by
  constructor
  · intro r
    cases r <;> rfl
  · intro s hs
    have hsplit : split_into_words s = [] := split_into_words_all_sep s hs
    refine ⟨?_, ?_, ?_, ?_, ?_, ?_, ?_, ?_, rfl⟩
    · simp [RenameRule.apply, to_pascal_case, hsplit]
    · simp [RenameRule.apply, to_camel_case, to_pascal_case, hsplit]
    · simp [RenameRule.apply, to_snake_case, hsplit, List.intercalate]
    · simp [RenameRule.apply, to_screaming_snake_case, hsplit, List.intercalate]
    · simp [RenameRule.apply, to_kebab_case, hsplit, List.intercalate]
    · simp [RenameRule.apply, to_screaming_kebab_case, hsplit, List.intercalate]
    · exact list_map_fix s (fun c hc => sep_toLower c (hs c hc))
    · exact list_map_fix s (fun c hc => sep_toUpper c (hs c hc))

/-- Witness for C8 (amended) at the separators-only string `"_"`. -/
theorem rename_rule_separators_witness :
    RenameRule.SnakeCase.apply "_".toList = [] ∧
    RenameRule.Passthrough.apply "_".toList = "_".toList :=
  ⟨(rename_rule_empty_and_separators.2 "_".toList (by decide)).2.2.1,
   (rename_rule_empty_and_separators.2 "_".toList (by decide)).2.2.2.2.2.2.2.2⟩

/-- C9: the wire name baked into the generated field metadata follows
the precedence: an explicit `rename` override wins; otherwise a
non-`Passthrough` container rule is applied to the raw name — except
that a numeric (tuple-index) name is never renamed; otherwise the raw
name is kept (the container rule defaults to `Passthrough` when no
`rename_all` is configured, and `Passthrough` is the identity). -/
theorem wire_name_precedence :
    (∀ (pre post : List FieldAttr) (v : List Char) (rule : RenameRule) (raw : List Char),
      (∀ a ∈ post, a = FieldAttr.otherFieldAttr) →
      gen_struct_field_name (pre ++ FieldAttr.rename v :: post) rule raw = v) ∧
    (∀ (attrs : List FieldAttr) (rule : RenameRule) (raw : List Char),
      (∀ a ∈ attrs, a = FieldAttr.otherFieldAttr) →
      isNumericName raw = false →
      gen_struct_field_name attrs rule raw = rule.apply raw) ∧
    (∀ (attrs : List FieldAttr) (rule : RenameRule) (raw : List Char),
      (∀ a ∈ attrs, a = FieldAttr.otherFieldAttr) →
      isNumericName raw = true →
      gen_struct_field_name attrs rule raw = raw) ∧
    build_container_rename_rule [] = RenameRule.Passthrough ∧
    build_container_rename_rule [ContainerAttr.renameAll "snake_case".toList] =
      RenameRule.SnakeCase := by
  refine ⟨?_, ?_, ?_, rfl, by decide⟩
  · intro pre post v rule raw hpost
    unfold gen_struct_field_name
    rw [renameFold_append pre post v false raw hpost]
    simp
  · intro attrs rule raw hattrs hnum
    unfold gen_struct_field_name
    rw [renameFold_no_rename attrs false raw hattrs]
    by_cases hr : rule = RenameRule.Passthrough
    · subst hr
      simp [RenameRule.apply]
    · simp [hr, hnum]
  · intro attrs rule raw hattrs hnum
    unfold gen_struct_field_name
    rw [renameFold_no_rename attrs false raw hattrs]
    simp [hnum]

/-- Witness for C9: an explicit rename beats the rule; `snake_case`
renames `fooBar`; the tuple-index name `0` is untouched. -/
theorem wire_name_precedence_witness :
    gen_struct_field_name [FieldAttr.otherFieldAttr, FieldAttr.rename "x".toList]
      RenameRule.SnakeCase "fooBar".toList = "x".toList ∧
    gen_struct_field_name [] RenameRule.SnakeCase "fooBar".toList = "foo_bar".toList ∧
    gen_struct_field_name [] RenameRule.SnakeCase "0".toList = "0".toList :=
  ⟨wire_name_precedence.1 [FieldAttr.otherFieldAttr] [] "x".toList RenameRule.SnakeCase
      "fooBar".toList (by decide),
   (wire_name_precedence.2.1 [] RenameRule.SnakeCase "fooBar".toList (by decide)
      (by decide)).trans (by decide),
   wire_name_precedence.2.2.1 [] RenameRule.SnakeCase "0".toList (by decide) (by decide)⟩

/-! ## Integer-encoding claims -/

/-- C3: every unsigned value is emitted with the minimal-width encoding
of the documented range table, at every declared width; in particular
127, 128 and 65536 encode as the documented byte sequences. -/
theorem unsigned_minimal_width (n : Nat) (h : n < 2 ^ 64) :
    write_u64 n = specUnsignedBytes n ∧
    (n < 2 ^ 32 → write_u32 n = specUnsignedBytes n) ∧
    (n < 2 ^ 16 → write_u16 n = specUnsignedBytes n) ∧
    (n < 2 ^ 8 → write_u8 n = specUnsignedBytes n) ∧
    write_u64 127 = [0x7f] ∧ write_u64 128 = [0xcc, 0x80] ∧
    write_u64 65536 = [0xce, 0, 1, 0, 0] :=
  ⟨write_u64_spec n h, write_u32_spec n, write_u16_spec n, write_u8_spec n,
   by decide, by decide, by decide⟩

/-- Witness for C3 at `n = 300`. -/
theorem unsigned_minimal_width_witness :
    write_u64 300 = specUnsignedBytes 300 ∧ write_u16 300 = specUnsignedBytes 300 :=
  ⟨(unsigned_minimal_width 300 (by decide)).1,
   (unsigned_minimal_width 300 (by decide)).2.2.1 (by decide)⟩

/-- C4: every signed writer follows the signed row of the range table —
negative fixint, `0xd0`/`0xd1`/`0xd2`/`0xd3` for the negative ranges,
the shared positive fixint for 0..127, and the unsigned encodings for
the remaining nonnegative values — over the full domain of its type,
including the minimum and maximum. -/
theorem signed_range_table (n : Int) :
    (-9223372036854775808 ≤ n → n ≤ 9223372036854775807 →
      write_i64 n = specSignedBytes n) ∧
    (-2147483648 ≤ n → n ≤ 2147483647 → write_i32 n = specSignedBytes n) ∧
    (-32768 ≤ n → n ≤ 32767 → write_i16 n = specSignedBytes n) ∧
    (-128 ≤ n → n ≤ 127 → write_i8 n = specSignedBytes n) :=
  ⟨write_i64_spec n, write_i32_spec n, write_i16_spec n, write_i8_spec n⟩

/-- Witness for C4 at the `i8` minimum and at the first value needing
`0xd3`. -/
theorem signed_range_table_witness :
    write_i8 (-128) = specSignedBytes (-128) ∧
    write_i64 (-2147483649) = specSignedBytes (-2147483649) :=
  ⟨(signed_range_table (-128)).2.2.2 (by decide) (by decide),
   (signed_range_table (-2147483649)).1 (by decide) (by decide)⟩

/-- C10: the emitted bytes depend only on the numeric value, not the
declared width: all unsigned writers agree on shared values, and the
signed writer agrees with the unsigned one on every nonnegative value. -/
theorem width_independent_encoding (n : Nat) (m : Int) :
    (n < 2 ^ 8 →
      write_u8 n = write_u64 n ∧ write_u16 n = write_u64 n ∧ write_u32 n = write_u64 n) ∧
    (n < 2 ^ 16 → write_u16 n = write_u64 n ∧ write_u32 n = write_u64 n) ∧
    (n < 2 ^ 32 → write_u32 n = write_u64 n) ∧
    (0 ≤ m → m ≤ 9223372036854775807 → write_i64 m = write_u64 m.toNat) :=
  ⟨fun h => ⟨write_u8_eq_u64 n h, write_u16_eq_u64 n (by omega), write_u32_eq_u64 n (by omega)⟩,
   fun h => ⟨write_u16_eq_u64 n h, write_u32_eq_u64 n (by omega)⟩,
   write_u32_eq_u64 n,
   write_i64_nonneg m⟩

/-- Witness for C10 at `n = 200`, `m = 200`. -/
theorem width_independent_encoding_witness :
    (write_u8 200 = write_u64 200 ∧ write_u16 200 = write_u64 200 ∧
      write_u32 200 = write_u64 200) ∧
    write_i64 200 = write_u64 (Int.toNat 200) :=
  ⟨(width_independent_encoding 200 200).1 (by decide),
   (width_independent_encoding 200 200).2.2.2 (by decide) (by decide)⟩

end Facet